import Mathlib

/-!
Verification of the tilores-insights record engine: a path-based value
extraction and numeric aggregation engine over JSON-like data trees.

The aggregators `Average` and `StandardDeviation` are translated from
`src/record/average.go` and `src/record/standarddeviation.go`.  The
extraction and coercion primitives (`Extract`, `ExtractNumber`,
`ExtractString`) are not part of the given sources (only their tests are),
so they are modelled from the specification (spec sections 4.1 - 4.3).

Go `float64` values are modelled as exact rationals (`ℚ`); `math.Sqrt` is
modelled as `Real.sqrt`.  Go `*float64` / `*string` results are modelled as
`Option`; the Go `error` return is modelled as `Except Err`.
-/

/-- A dynamically-typed JSON-like data tree: null, boolean, number, string,
ordered sequence, or string-keyed mapping (spec section 3).  Numbers are a
single kind, modelled as exact rationals. -/
inductive Value where
  | null
  | bool (b : Bool)
  | num (q : ℚ)
  | str (s : String)
  | seq (elems : List Value)
  | map (fields : List (String × Value))

/-- Model of `api.Record`: an identifier plus a data tree.  The `Data`
field of a Go record may be `nil`, hence the `Option`. -/
structure Record where
  id : String
  data : Option (List (String × Value))

/-- Model of the single error kind of the engine (spec section 7): only
number coercion of a resolved, non-null, non-numeric value fails. -/
inductive Err where
  | notNumeric
deriving DecidableEq

/-- Splits a list of characters at every dot, keeping empty segments,
mirroring Go `strings.Split(path, ".")`. -/
def splitDots : List Char → List (List Char)
  | [] => [[]]
  | c :: rest =>
    let r := splitDots rest
    if c = '.' then [] :: r
    else (c :: r.headD []) :: r.tail

/-- The dot-separated segments of a path string (spec section 3). -/
def pathSegments (path : String) : List String :=
  (splitDots path.data).map String.mk

/-- First value stored under the given key, mirroring a Go map lookup. -/
def lookupField : List (String × Value) → String → Option Value
  | [], _ => none
  | (k, v) :: rest, key => if k = key then some v else lookupField rest key

/-- Parses a path segment as a non-negative base-10 integer with no sign
and no extra characters (spec section 4.1); anything else is `none`. -/
def segToNat (cs : List Char) : Option ℕ :=
  match cs with
  | [] => none
  | _ => go cs 0
where
  go : List Char → ℕ → Option ℕ
    | [], acc => some acc
    | c :: rest, acc => if c.isDigit then go rest (acc * 10 + (c.toNat - 48)) else none

/-- Modelled from the spec: the Path Resolver walk (spec section 4.1),
missing from src/.  Descends one segment at a time: a mapping looks the
segment up as a key, a sequence requires an in-range non-negative integer
index, and a scalar with segments remaining yields NotFound (`none`). -/
def walk : Value → List String → Option Value
  | v, [] => some v
  | Value.map fields, seg :: rest =>
    match lookupField fields seg with
    | some v => walk v rest
    | none => none
  | Value.seq elems, seg :: rest =>
    match segToNat seg.data with
    | some i =>
      match elems[i]? with
      | some v => walk v rest
      | none => none
    | none => none
  | _, _ :: _ => none

/-- Modelled from the spec: `resolve`, the path resolution entry point
(spec section 4.1), missing from src/.  An absent record or an absent data
tree yields NotFound; otherwise the path segments are walked from the root
mapping.  No error is ever raised: the result type has no error channel. -/
def Extract (record : Option Record) (path : String) : Option Value :=
  match record with
  | none => none
  | some r =>
    match r.data with
    | none => none
    | some fields => walk (Value.map fields) (pathSegments path)

/-- Optional leading sign of a numeric literal. -/
def parseSign : List Char → ℤ × List Char
  | '-' :: rest => (-1, rest)
  | '+' :: rest => (1, rest)
  | cs => (1, cs)

/-- Value of a list of decimal digit characters. -/
def digitsVal (cs : List Char) : ℕ :=
  cs.foldl (fun acc c => acc * 10 + (c.toNat - 48)) 0

/-- Parses the exponent suffix of a floating-point literal: either nothing
remains, or `e`/`E`, an optional sign and at least one digit consume the
whole remainder. -/
def parseExp : List Char → Option ℤ
  | [] => some 0
  | c :: rest =>
    if c = 'e' ∨ c = 'E' then
      let sr := parseSign rest
      let ds := sr.2.takeWhile Char.isDigit
      let rest' := sr.2.dropWhile Char.isDigit
      if ds.isEmpty ∨ ¬ rest'.isEmpty then none
      else some (sr.1 * (digitsVal ds : ℤ))
    else none

/-- Modelled from the spec: parsing a string as a floating-point literal in
standard decimal or exponent notation (spec section 4.2), the missing
counterpart of Go `strconv.ParseFloat`.  An optional sign, a mantissa with
at least one digit and an optional fractional part, and an optional
exponent must consume the whole string. -/
def parseRat? (s : String) : Option ℚ :=
  let sc := parseSign s.data
  let ip := sc.2.takeWhile Char.isDigit
  let cs := sc.2.dropWhile Char.isDigit
  let fc : List Char × List Char :=
    match cs with
    | '.' :: rest => (rest.takeWhile Char.isDigit, rest.dropWhile Char.isDigit)
    | _ => ([], cs)
  if ip.isEmpty ∧ fc.1.isEmpty then none
  else
    match parseExp fc.2 with
    | none => none
    | some e =>
      let shift : ℤ := e - fc.1.length
      let mant : ℤ := sc.1 * (digitsVal (ip ++ fc.1) : ℤ)
      some (if 0 ≤ shift then mkRat (mant * 10 ^ shift.toNat) 1
            else mkRat mant (10 ^ (-shift).toNat))

/-- Modelled from the spec: Number Coercion (spec section 4.2), missing
from src/.  NotFound or a resolved null is an absent result with no error;
a number is returned directly; a string is parsed as a floating-point
literal, failure raising `NotNumeric`; any other type raises
`NotNumeric`. -/
def ExtractNumber (record : Option Record) (path : String) : Except Err (Option ℚ) :=
  match Extract record path with
  | none => Except.ok none
  | some Value.null => Except.ok none
  | some (Value.num q) => Except.ok (some q)
  | some (Value.str s) =>
    match parseRat? s with
    | some q => Except.ok (some q)
    | none => Except.error Err.notNumeric
  | some (Value.bool _) => Except.error Err.notNumeric
  | some (Value.seq _) => Except.error Err.notNumeric
  | some (Value.map _) => Except.error Err.notNumeric

/-- Decimal digits of a natural number, most significant first. -/
def natDigitsAux : ℕ → ℕ → List Char
  | 0, _ => []
  | fuel + 1, n =>
    if n = 0 then []
    else natDigitsAux fuel (n / 10) ++ [Char.ofNat (48 + n % 10)]

/-- Decimal rendering of a natural number. -/
def natDigits (n : ℕ) : List Char :=
  if n = 0 then ['0'] else natDigitsAux (n + 1) n

/-- Digits of the fractional part `rem / den`, produced by long division
and stopping at remainder zero, so no trailing zeros are emitted. -/
def fracDigits : ℕ → ℕ → ℕ → List Char
  | 0, _, _ => []
  | fuel + 1, rem, den =>
    if rem = 0 then []
    else Char.ofNat (48 + rem * 10 / den) :: fracDigits fuel (rem * 10 % den) den

/-- Modelled from the spec: the minimal decimal rendering of a number
(spec section 4.3), the missing counterpart of Go float formatting.
Integral values render without a fractional part; other values render
their digits with no trailing zeros. -/
def renderNum (q : ℚ) : String :=
  let rem := q.num.natAbs % q.den
  String.mk ((if q.num < 0 then ['-'] else []) ++ natDigits (q.num.natAbs / q.den) ++
    (if rem = 0 then [] else '.' :: fracDigits q.den rem q.den))

/-- Lower-cases every character of a string, mirroring Go
`strings.ToLower` on the ASCII strings of this engine. -/
def lowerStr (s : String) : String :=
  String.mk (s.data.map Char.toLower)

/-- Case normalization of a scalar string result: identity when case
sensitive, lower-casing otherwise (spec section 4.3). -/
def normCase (caseSensitive : Bool) (s : String) : String :=
  if caseSensitive then s else lowerStr s

/-- Wraps a string in double quotes for composite serialization. -/
def quoteStr (s : String) : String :=
  "\"" ++ s ++ "\""

/-- Key order used to serialize mapping fields: lexicographically
ascending on the key (spec section 4.3). -/
def keyLE (a b : String × String) : Prop := a.1 ≤ b.1

instance : DecidableRel keyLE := fun a b => inferInstanceAs (Decidable (a.1 ≤ b.1))

instance : IsTotal (String × String) keyLE := ⟨fun a b => le_total a.1 b.1⟩

instance : IsTrans (String × String) keyLE := ⟨fun _ _ _ h h2 => le_trans h h2⟩

/-- Strict key order, used to show canonical serialization is insensitive
to insertion order. -/
def keyLT (a b : String × String) : Prop := a.1 < b.1

instance : IsAntisymm (String × String) keyLT :=
  ⟨fun a _ h h2 => absurd (lt_trans h h2) (lt_irrefl a.1)⟩

/-- Sorts serialized mapping entries by key, lexicographically ascending
(spec section 4.3: keys sorted at serialization time). -/
def sortEntries (entries : List (String × String)) : List (String × String) :=
  List.insertionSort keyLE entries

mutual
/-- Modelled from the spec: canonical compact serialization of a composite
value (spec section 4.3), missing from src/.  Contained scalars are
normalized recursively (strings lower-cased when case-insensitive; the
forms of booleans and numbers contain no upper-case letters, so their
normalization is a no-op); mappings serialize with keys sorted
lexicographically ascending; sequences preserve element order; no
surrounding whitespace is produced. -/
def serializeValue (caseSensitive : Bool) : Value → String
  | Value.null => "null"
  | Value.bool b => if b then ("true") else ("false")
  | Value.num q => renderNum q
  | Value.str s => quoteStr (normCase caseSensitive s)
  | Value.seq elems =>
    "[" ++ String.intercalate (",") (serializeList caseSensitive elems) ++ "]"
  | Value.map fields =>
    "\x7b" ++ String.intercalate (",")
      ((sortEntries (serializeFields caseSensitive fields)).map
        (fun p => quoteStr p.1 ++ ":" ++ p.2)) ++ "\x7d"

/-- Serializations of the elements of a sequence, in original order. -/
def serializeList (caseSensitive : Bool) : List Value → List String
  | [] => []
  | v :: rest => serializeValue caseSensitive v :: serializeList caseSensitive rest

/-- Keys paired with the serializations of their values, in insertion
order; sorting happens afterwards in `serializeValue`. -/
def serializeFields (caseSensitive : Bool) : List (String × Value) → List (String × String)
  | [] => []
  | (k, v) :: rest =>
    (k, serializeValue caseSensitive v) :: serializeFields caseSensitive rest
end

/-- Modelled from the spec: String Coercion (spec section 4.3), missing
from src/.  NotFound or a resolved null is absent; booleans, numbers and
strings convert to their textual form, lower-cased when case-insensitive;
composites serialize canonically and are not re-lower-cased as a whole.
No error is ever raised: the result type has no error channel. -/
def ExtractString (record : Option Record) (path : String) (caseSensitive : Bool) :
    Option String :=
  match Extract record path with
  | none => none
  | some Value.null => none
  | some (Value.bool b) => some (normCase caseSensitive (if b then ("true") else ("false")))
  | some (Value.num q) => some (normCase caseSensitive (renderNum q))
  | some (Value.str s) => some (normCase caseSensitive s)
  | some (Value.seq elems) => some (serializeValue caseSensitive (Value.seq elems))
  | some (Value.map fields) => some (serializeValue caseSensitive (Value.map fields))

/-- The accumulation loop of `Average` (src/record/average.go, lines
12-21): left-to-right over the records, aborting at the first extraction
error, adding each present number to `sum` and counting it. -/
def sumLoop : List (Option Record) → String → ℚ → ℕ → Except Err (ℚ × ℕ)
  | [], _, sum, counted => Except.ok (sum, counted)
  | record :: rest, path, sum, counted =>
    match ExtractNumber record path with
    | Except.error e => Except.error e
    | Except.ok none => sumLoop rest path sum counted
    | Except.ok (some number) => sumLoop rest path (sum + number) (counted + 1)

/-- Translation of `Average` (src/record/average.go): an empty collection
is absent with no error; extraction errors propagate; zero present values
is absent with no error; otherwise the sum of present values divided by
their count. -/
def Average (records : List (Option Record)) (path : String) : Except Err (Option ℚ) :=
  if records.length = 0 then Except.ok none
  else
    match sumLoop records path 0 0 with
    | Except.error e => Except.error e
    | Except.ok (sum, counted) =>
      if counted = 0 then Except.ok none
      else Except.ok (some (sum / (counted : ℚ)))

/-- The second-pass loop of `StandardDeviation`
(src/record/standarddeviation.go, lines 18-29): accumulates the squared
deviation of each present number from the dereferenced average. -/
def devLoop : List (Option Record) → String → ℚ → ℚ → ℕ → Except Err (ℚ × ℕ)
  | [], _, _, difSquareSum, counted => Except.ok (difSquareSum, counted)
  | record :: rest, path, avg, difSquareSum, counted =>
    match ExtractNumber record path with
    | Except.error e => Except.error e
    | Except.ok none => devLoop rest path avg difSquareSum counted
    | Except.ok (some number) =>
      devLoop rest path avg (difSquareSum + (number - avg) * (number - avg)) (counted + 1)

/-- Translation of `StandardDeviation` (src/record/standarddeviation.go):
an empty collection is absent; errors from `Average` and from the second
pass propagate; zero present values is absent; otherwise the square root
of the mean squared deviation.  The Go code dereferences `*avg` inside the
loop; the dereference is modelled by `Option.getD avg 0`, and the default
is shown (theorem on claim C10) to be unreachable whenever a present
number exists. -/
noncomputable def StandardDeviation (records : List (Option Record)) (path : String) :
    Except Err (Option ℝ) :=
  if records.length = 0 then Except.ok none
  else
    match Average records path with
    | Except.error e => Except.error e
    | Except.ok avg =>
      match devLoop records path (Option.getD avg 0) 0 0 with
      | Except.error e => Except.error e
      | Except.ok (difSquareSum, counted) =>
        if counted = 0 then Except.ok none
        else Except.ok (some (Real.sqrt ((difSquareSum / (counted : ℚ) : ℚ) : ℝ)))

/-- Whether number coercion of this record succeeds (with a present or
absent value) rather than raising an error. -/
def numberOk (record : Option Record) (path : String) : Bool :=
  match ExtractNumber record path with
  | Except.ok _ => true
  | Except.error _ => false

/-- The present (non-absent) numeric values of the records at the path, in
iteration order; records whose coercion errs or is absent contribute
nothing. -/
def presentValues : List (Option Record) → String → List ℚ
  | [], _ => []
  | record :: rest, path =>
    match ExtractNumber record path with
    | Except.ok (some x) => x :: presentValues rest path
    | _ => presentValues rest path

/-- The mean of the present values, stated from the specification's words
(sum of present values over their count) for comparison with `Average`. -/
def meanOf (records : List (Option Record)) (path : String) : ℚ :=
  (presentValues records path).sum / ((presentValues records path).length : ℚ)

/-- The population variance of the present values, stated from the
specification's words (mean squared deviation from the mean, dividing by
`n`) for comparison with `StandardDeviation`. -/
def popVariance (records : List (Option Record)) (path : String) : ℚ :=
  ((presentValues records path).map
    (fun x => (x - meanOf records path) * (x - meanOf records path))).sum /
    ((presentValues records path).length : ℚ)

/-- Data tree of the record used in TestExtract
(src/record/extract_test.go). -/
def extractData : List (String × Value) :=
  [("value", Value.str ("string")),
   ("nested", Value.map
     [("value", Value.str ("nested string value")),
      ("super", Value.map [("value", Value.str ("Super Nested String Value"))])]),
   ("int", Value.num 123),
   ("list", Value.seq [Value.str ("abc"), Value.str ("DEF"), Value.str ("geh")]),
   ("nullValue", Value.null),
   ("emptyString", Value.str (""))]

/-- The record used in TestExtract. -/
def extractRecord : Option Record :=
  some (Record.mk ("some-id") (some extractData))

/-- Data tree of the record used in TestExtractNumber
(src/record/extract_test.go). -/
def numberData : List (String × Value) :=
  [("nonnumeric", Value.str ("string")),
   ("int", Value.num 123),
   ("float", Value.num (mkRat 1234 10)),
   ("nullValue", Value.null),
   ("numericText", Value.str ("123")),
   ("exponent", Value.str ("1e3")),
   ("nested", Value.map [("value", Value.str ("123"))])]

/-- The record used in TestExtractNumber. -/
def numberRecord : Option Record :=
  some (Record.mk ("some-id") (some numberData))

/-- Data tree of the record used in TestExtractString
(src/record/extract_test.go). -/
def stringData : List (String × Value) :=
  [("list", Value.seq [Value.str ("abc"), Value.str ("DEF"), Value.str ("geh")]),
   ("keepUpper", Value.str ("Has Upper Case")),
   ("caseInsensitive", Value.str ("Has Upper Case")),
   ("bool", Value.bool true),
   ("emptyString", Value.str ("")),
   ("int", Value.num 123),
   ("float", Value.num (mkRat 1234 10)),
   ("nullValue", Value.null),
   ("numericText", Value.str ("123")),
   ("exponent", Value.str ("1e3")),
   ("nested", Value.map [("propB", Value.str ("valB")), ("propA", Value.str ("valA"))])]

/-- The record used in TestExtractString. -/
def stringRecord : Option Record :=
  some (Record.mk ("some-id") (some stringData))

/-- A one-field record holding the number `q` under the key `v`. -/
def numRecord (q : ℚ) : Option Record :=
  some (Record.mk ("r") (some [("v", Value.num q)]))

/-- A one-field record holding the string `s` under the key `v`. -/
def strRecord (s : String) : Option Record :=
  some (Record.mk ("fresh") (some [("v", Value.str s)]))

/-- A collection with one present value (10), one record without the path
and one absent record. -/
def avgRecords : List (Option Record) :=
  [numRecord 10, some (Record.mk ("empty") (some [])), none]

/-- Eight records holding 2, 4, 4, 4, 5, 5, 7, 9 under the key `v` (the
standard-deviation example of spec section 8). -/
def sdRecords : List (Option Record) :=
  [numRecord 2, numRecord 4, numRecord 4, numRecord 4, numRecord 5, numRecord 5,
   numRecord 7, numRecord 9]

/-- A collection whose second record holds a boolean under the key `v`, so
its number coercion raises `NotNumeric`. -/
def errRecords : List (Option Record) :=
  [numRecord 2, some (Record.mk ("bad") (some [("v", Value.bool true)])), numRecord 5]

/-- A non-empty collection with no present numeric value at the key `v`. -/
def noneRecords : List (Option Record) :=
  [some (Record.mk ("empty") (some [])), none]

/-- A record passes `numberOk` exactly when its number coercion returns an
`ok` result. -/
theorem numberOk_iff (r : Option Record) (path : String) :
    numberOk r path = true ↔ ∃ o, ExtractNumber r path = Except.ok o := by
  unfold numberOk
  cases h : ExtractNumber r path with
  | error e => simp
  | ok o => simp

/-- When every record's coercion succeeds, the `Average` loop returns the
running sum plus the sum of the present values, and the running count plus
their number. -/
theorem sumLoop_eval (path : String) (records : List (Option Record))
    (h : ∀ r ∈ records, numberOk r path = true) :
    ∀ (s : ℚ) (c : ℕ),
    sumLoop records path s c =
      Except.ok (s + (presentValues records path).sum,
                 c + (presentValues records path).length) := by
  induction records with
  | nil => intro s c; simp [sumLoop, presentValues]
  | cons r rest ih =>
    intro s c
    have hr : numberOk r path = true := h r (List.mem_cons_self r rest)
    have hrest : ∀ r' ∈ rest, numberOk r' path = true :=
      fun r' hm => h r' (List.mem_cons_of_mem r hm)
    obtain ⟨o, ho⟩ := (numberOk_iff r path).mp hr
    cases o with
    | none =>
      simp only [sumLoop, presentValues, ho]
      exact ih hrest s c
    | some x =>
      simp only [sumLoop, presentValues, ho, List.sum_cons, List.length_cons]
      rw [ih hrest (s + x) (c + 1)]
      congr 2
      · ring
      · omega

/-- When every record's coercion succeeds, the `StandardDeviation` loop
returns the running sum plus the summed squared deviations of the present
values from `avg`, and the running count plus their number. -/
theorem devLoop_eval (path : String) (avg : ℚ) (records : List (Option Record))
    (h : ∀ r ∈ records, numberOk r path = true) :
    ∀ (s : ℚ) (c : ℕ),
    devLoop records path avg s c =
      Except.ok (s + ((presentValues records path).map
                   (fun x => (x - avg) * (x - avg))).sum,
                 c + (presentValues records path).length) := by
  induction records with
  | nil => intro s c; simp [devLoop, presentValues]
  | cons r rest ih =>
    intro s c
    have hr : numberOk r path = true := h r (List.mem_cons_self r rest)
    have hrest : ∀ r' ∈ rest, numberOk r' path = true :=
      fun r' hm => h r' (List.mem_cons_of_mem r hm)
    obtain ⟨o, ho⟩ := (numberOk_iff r path).mp hr
    cases o with
    | none =>
      simp only [devLoop, presentValues, ho]
      exact ih hrest s c
    | some x =>
      simp only [devLoop, presentValues, ho, List.map_cons, List.sum_cons,
        List.length_cons]
      rw [ih hrest (s + (x - avg) * (x - avg)) (c + 1)]
      congr 2
      · ring
      · omega

/-- The `Average` loop aborts with the first extraction error: records
before the offending one succeeding, the loop result is that error. -/
theorem sumLoop_error (path : String) (e : Err) (pre : List (Option Record))
    (bad : Option Record) (rest : List (Option Record))
    (hpre : ∀ r ∈ pre, numberOk r path = true)
    (hbad : ExtractNumber bad path = Except.error e) :
    ∀ (s : ℚ) (c : ℕ), sumLoop (pre ++ bad :: rest) path s c = Except.error e := by
  induction pre with
  | nil => intro s c; simp [sumLoop, hbad]
  | cons p pre' ih =>
    intro s c
    have hp : numberOk p path = true := hpre p (List.mem_cons_self p pre')
    have hpre' : ∀ r ∈ pre', numberOk r path = true :=
      fun r hm => hpre r (List.mem_cons_of_mem p hm)
    obtain ⟨o, ho⟩ := (numberOk_iff p path).mp hp
    cases o with
    | none =>
      simp only [List.cons_append, sumLoop, ho]
      exact ih hpre' s c
    | some x =>
      simp only [List.cons_append, sumLoop, ho]
      exact ih hpre' (s + x) (c + 1)

/-- The `StandardDeviation` loop aborts with the first extraction error. -/
theorem devLoop_error (path : String) (e : Err) (avg : ℚ) (pre : List (Option Record))
    (bad : Option Record) (rest : List (Option Record))
    (hpre : ∀ r ∈ pre, numberOk r path = true)
    (hbad : ExtractNumber bad path = Except.error e) :
    ∀ (s : ℚ) (c : ℕ), devLoop (pre ++ bad :: rest) path avg s c = Except.error e := by
  induction pre with
  | nil => intro s c; simp [devLoop, hbad]
  | cons p pre' ih =>
    intro s c
    have hp : numberOk p path = true := hpre p (List.mem_cons_self p pre')
    have hpre' : ∀ r ∈ pre', numberOk r path = true :=
      fun r hm => hpre r (List.mem_cons_of_mem p hm)
    obtain ⟨o, ho⟩ := (numberOk_iff p path).mp hp
    cases o with
    | none =>
      simp only [List.cons_append, devLoop, ho]
      exact ih hpre' s c
    | some x =>
      simp only [List.cons_append, devLoop, ho]
      exact ih hpre' (s + (x - avg) * (x - avg)) (c + 1)

/-- If the `Average` loop finished without an error, every record's
coercion succeeded. -/
theorem sumLoop_ok_all (path : String) :
    ∀ (records : List (Option Record)) (s : ℚ) (c : ℕ) (out : ℚ × ℕ),
    sumLoop records path s c = Except.ok out →
    ∀ r ∈ records, numberOk r path = true := by
  intro records
  induction records with
  | nil => intro s c out _ r hmem; simp at hmem
  | cons p rest ih =>
    intro s c out hok r hmem
    cases hex : ExtractNumber p path with
    | error e =>
      rw [sumLoop, hex] at hok
      exact absurd hok (by simp)
    | ok o =>
      rcases List.mem_cons.mp hmem with h1 | h2
      · subst h1; simp [numberOk, hex]
      · cases o with
        | none =>
          rw [sumLoop, hex] at hok
          exact ih _ _ _ hok r h2
        | some x =>
          rw [sumLoop, hex] at hok
          exact ih _ _ _ hok r h2

/-- When every record's coercion succeeds, `Average` returns the mean of
the present values, or an absent result when there are none. -/
theorem Average_eval (records : List (Option Record)) (path : String)
    (h : ∀ r ∈ records, numberOk r path = true) :
    Average records path =
      Except.ok (if (presentValues records path).length = 0 then none
        else some (meanOf records path)) := by
  cases records with
  | nil => simp [Average, presentValues]
  | cons r rest =>
    have hs := sumLoop_eval path (r :: rest) h 0 0
    rw [zero_add, zero_add] at hs
    simp only [Average, List.length_cons, Nat.succ_ne_zero, if_false, hs, meanOf]
    by_cases hc : (presentValues (r :: rest) path).length = 0
    · simp [hc]
    · simp [hc]

/-- If `Average` finished without an error, every record's coercion
succeeded. -/
theorem Average_ok_all (records : List (Option Record)) (path : String)
    (avg : Option ℚ) (h : Average records path = Except.ok avg) :
    ∀ r ∈ records, numberOk r path = true := by
  cases records with
  | nil => intro r hm; simp at hm
  | cons p rest =>
    intro r hm
    rw [Average, if_neg (by simp)] at h
    cases hs : sumLoop (p :: rest) path 0 0 with
    | error e => rw [hs] at h; simp at h
    | ok out => exact sumLoop_ok_all path (p :: rest) 0 0 out hs r hm

/-- A record whose coercion yields a present value forces the list of
present values to be non-empty. -/
theorem presentValues_mem_ne_nil (path : String) :
    ∀ (records : List (Option Record)) (r : Option Record) (x : ℚ),
    r ∈ records → ExtractNumber r path = Except.ok (some x) →
    presentValues records path ≠ [] := by
  intro records
  induction records with
  | nil => intro r x hm; simp at hm
  | cons p rest ih =>
    intro r x hm hx
    rcases List.mem_cons.mp hm with h1 | h2
    · subst h1; simp [presentValues, hx]
    · cases hex : ExtractNumber p path with
      | error e =>
        simp only [presentValues, hex]
        exact ih r x h2 hx
      | ok o =>
        cases o with
        | none =>
          simp only [presentValues, hex]
          exact ih r x h2 hx
        | some y =>
          simp [presentValues, hex]

/-- When every record's coercion succeeds and at least one value is
present, `StandardDeviation` returns the square root of the population
variance of the present values. -/
theorem StandardDeviation_eval (records : List (Option Record)) (path : String)
    (h : ∀ r ∈ records, numberOk r path = true)
    (hp : presentValues records path ≠ []) :
    StandardDeviation records path =
      Except.ok (some (Real.sqrt ((popVariance records path : ℚ) : ℝ))) := by
  have hne : records ≠ [] := by
    intro hE
    subst hE
    exact hp rfl
  have hlen : (presentValues records path).length ≠ 0 := by
    simpa [List.length_eq_zero] using hp
  have havg := Average_eval records path h
  rw [if_neg hlen] at havg
  have hdev := devLoop_eval path (meanOf records path) records h 0 0
  rw [zero_add, zero_add] at hdev
  rw [StandardDeviation, if_neg (by simpa [List.length_eq_zero] using hne), havg]
  simp only [Option.getD_some]
  rw [hdev]
  simp [hlen, popVariance]

/-- The serialized mapping entries come out sorted by key. -/
theorem sortEntries_sorted_le (entries : List (String × String)) :
    (sortEntries entries).Sorted keyLE :=
  List.sorted_insertionSort keyLE entries

/-- Sorting the serialized mapping entries keeps exactly the entries. -/
theorem sortEntries_perm (entries : List (String × String)) :
    (sortEntries entries).Perm entries :=
  List.perm_insertionSort keyLE entries

/-- With pairwise distinct keys the sorted entries are strictly sorted. -/
theorem sortEntries_sorted_lt (entries : List (String × String))
    (h : (entries.map Prod.fst).Nodup) : (sortEntries entries).Sorted keyLT := by
  have hs : (sortEntries entries).Sorted keyLE := sortEntries_sorted_le entries
  have hnodup : ((sortEntries entries).map Prod.fst).Nodup :=
    ((sortEntries_perm entries).map Prod.fst).nodup_iff.mpr h
  have hp : (sortEntries entries).Pairwise (fun a b => a.1 ≠ b.1) :=
    List.pairwise_map.mp hnodup
  exact (hs.and hp).imp (fun hab => lt_of_le_of_ne hab.1 hab.2)

/-- The field serialization pass is a map over the fields. -/
theorem serializeFields_eq_map (cs : Bool) (l : List (String × Value)) :
    serializeFields cs l = l.map (fun p => (p.1, serializeValue cs p.2)) := by
  induction l with
  | nil => rfl
  | cons p rest ih =>
    cases p
    simp [serializeFields, ih]

/-- The sequence serialization pass is a map over the elements, keeping
their order. -/
theorem serializeList_eq_map (cs : Bool) (l : List Value) :
    serializeList cs l = l.map (serializeValue cs) := by
  induction l with
  | nil => rfl
  | cons v rest ih => simp [serializeList, ih]

/-- Serializing a mapping depends only on the set of fields (with distinct
keys), not on their insertion order. -/
theorem serializeValue_map_perm (cs : Bool) (fields fields' : List (String × Value))
    (hperm : fields.Perm fields') (hnodup : (fields.map Prod.fst).Nodup) :
    serializeValue cs (Value.map fields) = serializeValue cs (Value.map fields') := by
  have hperm2 : (serializeFields cs fields).Perm (serializeFields cs fields') := by
    rw [serializeFields_eq_map, serializeFields_eq_map]
    exact hperm.map _
  have hkeys : ∀ l : List (String × Value),
      (serializeFields cs l).map Prod.fst = l.map Prod.fst := by
    intro l
    rw [serializeFields_eq_map, List.map_map]
    rfl
  have hn1 : ((serializeFields cs fields).map Prod.fst).Nodup := by
    rw [hkeys]; exact hnodup
  have hn2 : ((serializeFields cs fields').map Prod.fst).Nodup := by
    rw [hkeys]
    exact ((hperm.map Prod.fst).nodup_iff).mp hnodup
  have hsorted : sortEntries (serializeFields cs fields) =
      sortEntries (serializeFields cs fields') := by
    exact List.eq_of_perm_of_sorted
      ((sortEntries_perm _).trans (hperm2.trans (sortEntries_perm _).symm))
      (sortEntries_sorted_lt _ hn1) (sortEntries_sorted_lt _ hn2)
  simp only [serializeValue, hsorted]

/-- Claim C1: for every collection of records and path such that no record
raises NotNumeric, Average returns the sum of the present (non-absent)
numeric values divided by the count of present values; absent values are
skipped (not treated as zero); an empty collection or a collection with
zero present values yields an absent result with no error. -/
theorem Average_mean_of_present_values (records : List (Option Record)) (path : String)
    (h : ∀ r ∈ records, numberOk r path = true) :
    Average records path =
      Except.ok (if (presentValues records path).length = 0 then none
        else some ((presentValues records path).sum /
          ((presentValues records path).length : ℚ))) :=
  Average_eval records path h

/-- Witness for claim C1: a collection with one present value 10, one
record without the path and one absent record averages to 10, and the
all-number eight-record collection averages to 5. -/
theorem Average_mean_of_present_values_witness :
    Average avgRecords ("v") = Except.ok (some 10) ∧
    Average sdRecords ("v") = Except.ok (some 5) := by
  constructor
  · have h := Average_mean_of_present_values avgRecords ("v") (by decide)
    rw [h]
    with_unfolding_all rfl
  · have h := Average_mean_of_present_values sdRecords ("v") (by decide)
    rw [h]
    with_unfolding_all rfl

/-- Claim C2: with every coercion succeeding and at least one present
value, StandardDeviation returns the square root of the sum of squared
deviations from the mean divided by the count of present values (the
population formula, dividing by n); in particular for eight records
holding 2, 4, 4, 4, 5, 5, 7, 9 the result is exactly 2. -/
theorem StandardDeviation_population_formula (records : List (Option Record))
    (path : String) (h : ∀ r ∈ records, numberOk r path = true)
    (hp : presentValues records path ≠ []) :
    StandardDeviation records path =
      Except.ok (some (Real.sqrt ((popVariance records path : ℚ) : ℝ))) ∧
    StandardDeviation sdRecords ("v") = Except.ok (some 2) := by
  refine ⟨StandardDeviation_eval records path h hp, ?_⟩
  have h8 := StandardDeviation_eval sdRecords ("v") (by decide)
    (by with_unfolding_all decide)
  rw [h8]
  have hv : popVariance sdRecords ("v") = 4 := by with_unfolding_all rfl
  rw [hv]
  have hc : ((4 : ℚ) : ℝ) = (2 : ℝ) ^ 2 := by norm_num
  rw [hc, Real.sqrt_sq (by norm_num : (0:ℝ) ≤ 2)]

/-- Witness for claim C2: the eight-record example evaluates to exactly
2. -/
theorem StandardDeviation_population_formula_witness :
    StandardDeviation sdRecords ("v") = Except.ok (some 2) :=
  (StandardDeviation_population_formula sdRecords ("v") (by decide)
    (by with_unfolding_all decide)).2

/-- Claim C3: number coercion returns an absent result with no error when
the path does not resolve or resolves to null; returns a number directly;
parses a string as a floating-point literal, returning the parsed value on
success and NotNumeric on failure; and raises NotNumeric for booleans,
mappings and sequences. -/
theorem ExtractNumber_coercion_cases (r : Option Record) (path : String) :
    (Extract r path = none → ExtractNumber r path = Except.ok none) ∧
    (Extract r path = some Value.null → ExtractNumber r path = Except.ok none) ∧
    (∀ q, Extract r path = some (Value.num q) →
      ExtractNumber r path = Except.ok (some q)) ∧
    (∀ s q, Extract r path = some (Value.str s) → parseRat? s = some q →
      ExtractNumber r path = Except.ok (some q)) ∧
    (∀ s, Extract r path = some (Value.str s) → parseRat? s = none →
      ExtractNumber r path = Except.error Err.notNumeric) ∧
    (∀ b, Extract r path = some (Value.bool b) →
      ExtractNumber r path = Except.error Err.notNumeric) ∧
    (∀ fields, Extract r path = some (Value.map fields) →
      ExtractNumber r path = Except.error Err.notNumeric) ∧
    (∀ elems, Extract r path = some (Value.seq elems) →
      ExtractNumber r path = Except.error Err.notNumeric) := by
  refine ⟨fun h => by simp [ExtractNumber, h],
    fun h => by simp [ExtractNumber, h],
    fun q h => by simp [ExtractNumber, h],
    fun s q h hp => by simp [ExtractNumber, h, hp],
    fun s h hp => by simp [ExtractNumber, h, hp],
    fun b h => by simp [ExtractNumber, h],
    fun fields h => by simp [ExtractNumber, h],
    fun elems h => by simp [ExtractNumber, h]⟩

/-- Witness for claim C3: the table of TestExtractNumber
(src/record/extract_test.go): a number, a numeric string, an exponent
string, an unparsable string, a null, a missing path and a nested mapping. -/
theorem ExtractNumber_coercion_cases_witness :
    ExtractNumber numberRecord ("int") = Except.ok (some 123) ∧
    ExtractNumber numberRecord ("numericText") = Except.ok (some 123) ∧
    ExtractNumber numberRecord ("exponent") = Except.ok (some 1000) ∧
    ExtractNumber numberRecord ("nonnumeric") = Except.error Err.notNumeric ∧
    ExtractNumber numberRecord ("nullValue") = Except.ok none ∧
    ExtractNumber numberRecord ("missing") = Except.ok none ∧
    ExtractNumber numberRecord ("nested") = Except.error Err.notNumeric := by
  refine ⟨?_, ?_, ?_, ?_, ?_, ?_, ?_⟩
  · exact (ExtractNumber_coercion_cases numberRecord ("int")).2.2.1 123 rfl
  · exact (ExtractNumber_coercion_cases numberRecord ("numericText")).2.2.2.1 ("123") 123
      rfl (by with_unfolding_all rfl)
  · exact (ExtractNumber_coercion_cases numberRecord ("exponent")).2.2.2.1 ("1e3") 1000
      rfl (by with_unfolding_all rfl)
  · exact (ExtractNumber_coercion_cases numberRecord ("nonnumeric")).2.2.2.2.1 ("string")
      rfl (by with_unfolding_all rfl)
  · exact (ExtractNumber_coercion_cases numberRecord ("nullValue")).2.1 rfl
  · exact (ExtractNumber_coercion_cases numberRecord ("missing")).1 rfl
  · exact (ExtractNumber_coercion_cases numberRecord ("nested")).2.2.2.2.2.2.1
      [("value", Value.str ("123"))] rfl

/-- Claim C4: when some record's numeric coercion raises NotNumeric and
all records before it succeed, both Average and StandardDeviation return
that first error and no partial aggregate: the aggregation aborts at the
first offending record. -/
theorem aggregators_abort_on_first_error (pre : List (Option Record))
    (bad : Option Record) (rest : List (Option Record)) (path : String) (e : Err)
    (hpre : ∀ r ∈ pre, numberOk r path = true)
    (hbad : ExtractNumber bad path = Except.error e) :
    Average (pre ++ bad :: rest) path = Except.error e ∧
    StandardDeviation (pre ++ bad :: rest) path = Except.error e := by
  have hlen : ¬((pre ++ bad :: rest).length = 0) := by simp
  have hsum := sumLoop_error path e pre bad rest hpre hbad 0 0
  have havg : Average (pre ++ bad :: rest) path = Except.error e := by
    rw [Average, if_neg hlen, hsum]
  refine ⟨havg, ?_⟩
  rw [StandardDeviation, if_neg hlen, havg]

/-- Witness for claim C4: a collection whose second record holds a boolean
fails both aggregators with NotNumeric. -/
theorem aggregators_abort_on_first_error_witness :
    Average errRecords ("v") = Except.error Err.notNumeric ∧
    StandardDeviation errRecords ("v") = Except.error Err.notNumeric :=
  aggregators_abort_on_first_error [numRecord 2]
    (some (Record.mk ("bad") (some [("v", Value.bool true)]))) [numRecord 5] ("v")
    Err.notNumeric (by decide) rfl

/-- Claim C5: path resolution never raises an error, for any record
(including an absent record or one with an absent data tree) and any
path: a missing map key, a sequence segment that is not a plain
non-negative integer, an out-of-range index, and remaining segments below
a scalar all yield the absent NotFound result. -/
theorem Extract_total_not_found_cases (path : String) :
    (Extract none path = none) ∧
    (∀ i, Extract (some (Record.mk i none)) path = none) ∧
    (∀ fields seg rest, lookupField fields seg = none →
      walk (Value.map fields) (seg :: rest) = none) ∧
    (∀ elems seg rest, segToNat seg.data = none →
      walk (Value.seq elems) (seg :: rest) = none) ∧
    (∀ elems seg rest i, segToNat seg.data = some i → elems.length ≤ i →
      walk (Value.seq elems) (seg :: rest) = none) ∧
    (∀ seg rest, walk Value.null (seg :: rest) = none) ∧
    (∀ b seg rest, walk (Value.bool b) (seg :: rest) = none) ∧
    (∀ q seg rest, walk (Value.num q) (seg :: rest) = none) ∧
    (∀ s seg rest, walk (Value.str s) (seg :: rest) = none) := by
  refine ⟨rfl, fun i => rfl, ?_, ?_, ?_, fun seg rest => rfl, fun b seg rest => rfl,
    fun q seg rest => rfl, fun s seg rest => rfl⟩
  · intro fields seg rest h
    simp [walk, h]
  · intro elems seg rest h
    simp [walk, h]
  · intro elems seg rest i h hlen
    simp [walk, h, List.getElem?_eq_none hlen]

/-- Witness for claim C5: the NotFound rows of the TestExtract table
(src/record/extract_test.go): absent record, absent data tree, negative
and non-numeric and out-of-range list indices, descent below a scalar, and
missing keys. -/
theorem Extract_total_not_found_cases_witness :
    Extract none ("value") = none ∧
    Extract (some (Record.mk ("some-id") none)) ("value") = none ∧
    Extract extractRecord ("list.-1") = none ∧
    Extract extractRecord ("list.a") = none ∧
    Extract extractRecord ("list.4") = none ∧
    Extract extractRecord ("int.nonexistent") = none ∧
    Extract extractRecord ("nonexistent") = none ∧
    Extract extractRecord ("nested.value.nonexistent") = none := by
  have base := Extract_total_not_found_cases ("value")
  refine ⟨base.1, base.2.1 ("some-id"), ?_, ?_, ?_, ?_, ?_, ?_⟩
  · have step : Extract extractRecord ("list.-1") =
        walk (Value.seq [Value.str ("abc"), Value.str ("DEF"), Value.str ("geh")])
          [("-1" : String)] := rfl
    rw [step]
    exact base.2.2.2.1 _ ("-1") [] rfl
  · have step : Extract extractRecord ("list.a") =
        walk (Value.seq [Value.str ("abc"), Value.str ("DEF"), Value.str ("geh")])
          [("a" : String)] := rfl
    rw [step]
    exact base.2.2.2.1 _ ("a") [] rfl
  · have step : Extract extractRecord ("list.4") =
        walk (Value.seq [Value.str ("abc"), Value.str ("DEF"), Value.str ("geh")])
          [("4" : String)] := rfl
    rw [step]
    exact base.2.2.2.2.1 _ ("4") [] 4 rfl (by decide)
  · have step : Extract extractRecord ("int.nonexistent") =
        walk (Value.num 123) [("nonexistent" : String)] := rfl
    rw [step]
    exact base.2.2.2.2.2.2.2.1 123 ("nonexistent") []
  · have step : Extract extractRecord ("nonexistent") =
        walk (Value.map extractData) [("nonexistent" : String)] := rfl
    rw [step]
    exact base.2.2.1 extractData ("nonexistent") [] rfl
  · have step : Extract extractRecord ("nested.value.nonexistent") =
        walk (Value.str ("nested string value")) [("nonexistent" : String)] := rfl
    rw [step]
    exact base.2.2.2.2.2.2.2.2 ("nested string value") ("nonexistent") []

/-- Claim C6: a composite value serializes to a compact JSON-like form in
which mapping keys appear sorted lexicographically ascending regardless of
insertion order, with no surrounding whitespace, and sequence elements
keep their original order; in particular a mapping inserted as propB then
propA serializes with propA first. -/
theorem ExtractString_canonical_composite :
    (∀ entries, ((sortEntries entries).map Prod.fst).Sorted (fun a b => a ≤ b)) ∧
    (∀ entries, (sortEntries entries).Perm entries) ∧
    (∀ cs fields fields', fields.Perm fields' → (fields.map Prod.fst).Nodup →
      serializeValue cs (Value.map fields) = serializeValue cs (Value.map fields')) ∧
    (∀ cs elems, serializeValue cs (Value.seq elems) =
      "[" ++ String.intercalate (",") (elems.map (serializeValue cs)) ++ "]") ∧
    (∀ r path fields, Extract r path = some (Value.map fields) →
      ExtractString r path true = some (serializeValue true (Value.map fields))) ∧
    ExtractString stringRecord ("nested") true =
      some ("\x7b\"propA\":\"valA\",\"propB\":\"valB\"\x7d") := by
  refine ⟨?_, sortEntries_perm, serializeValue_map_perm, ?_, ?_, ?_⟩
  · intro entries
    exact List.pairwise_map.mpr (sortEntries_sorted_le entries)
  · intro cs elems
    simp only [serializeValue, serializeList_eq_map]
  · intro r path fields h
    simp [ExtractString, h]
  · with_unfolding_all rfl

/-- Witness for claim C6: swapping the two fields of the propB/propA
mapping does not change its serialization, the TestExtractString record
serializes that mapping with sorted keys, and the list of
TestExtractString keeps its element order (lower-cased, case-insensitive). -/
theorem ExtractString_canonical_composite_witness :
    serializeValue true
        (Value.map [("propB", Value.str ("valB")), ("propA", Value.str ("valA"))]) =
      serializeValue true
        (Value.map [("propA", Value.str ("valA")), ("propB", Value.str ("valB"))]) ∧
    ExtractString stringRecord ("nested") true =
      some ("\x7b\"propA\":\"valA\",\"propB\":\"valB\"\x7d") ∧
    ExtractString stringRecord ("list") false = some ("[\"abc\",\"def\",\"geh\"]") := by
  refine ⟨?_, ExtractString_canonical_composite.2.2.2.2.2, by with_unfolding_all rfl⟩
  exact ExtractString_canonical_composite.2.2.1 true _ _ (List.Perm.swap _ _ _) (by decide)

/-- Claim C7: string coercion of a scalar converts booleans to true/false,
numbers to their minimal decimal representation (integral values with no
fractional part, such as 123; non-integral values such as 123.4), and
strings to themselves; a case-insensitive result is lower-cased and a
case-sensitive one is left unchanged. -/
theorem ExtractString_scalar_rules :
    (∀ r path b, Extract r path = some (Value.bool b) →
      ExtractString r path true = some (if b then ("true") else ("false")) ∧
      ExtractString r path false = some (if b then ("true") else ("false"))) ∧
    (∀ r path q, Extract r path = some (Value.num q) →
      ExtractString r path true = some (renderNum q) ∧
      ExtractString r path false = some (lowerStr (renderNum q))) ∧
    (∀ r path s, Extract r path = some (Value.str s) →
      ExtractString r path true = some s ∧
      ExtractString r path false = some (lowerStr s)) ∧
    (∀ q : ℚ, q.den = 1 → renderNum q =
      String.mk ((if q.num < 0 then ['-'] else []) ++ natDigits q.num.natAbs)) ∧
    renderNum 123 = ("123") ∧
    renderNum (mkRat 1234 10) = ("123.4") := by
  refine ⟨?_, ?_, ?_, ?_, by with_unfolding_all rfl, by with_unfolding_all rfl⟩
  · intro r path b h
    constructor
    · simp [ExtractString, h, normCase]
    · have ht : lowerStr ("true") = ("true") := rfl
      have hf : lowerStr ("false") = ("false") := rfl
      cases b
      · simp [ExtractString, h, normCase, hf]
      · simp [ExtractString, h, normCase, ht]
  · intro r path q h
    exact ⟨by simp [ExtractString, h, normCase], by simp [ExtractString, h, normCase]⟩
  · intro r path s h
    exact ⟨by simp [ExtractString, h, normCase], by simp [ExtractString, h, normCase]⟩
  · intro q hq
    simp [renderNum, hq, Nat.mod_one]

/-- Witness for claim C7: the scalar rows of TestExtractString
(src/record/extract_test.go). -/
theorem ExtractString_scalar_rules_witness :
    ExtractString stringRecord ("bool") true = some ("true") ∧
    ExtractString stringRecord ("int") true = some ("123") ∧
    ExtractString stringRecord ("float") true = some ("123.4") ∧
    ExtractString stringRecord ("keepUpper") true = some ("Has Upper Case") ∧
    ExtractString stringRecord ("caseInsensitive") false = some ("has upper case") ∧
    ExtractString stringRecord ("exponent") true = some ("1e3") := by
  obtain ⟨hb, hn, hs, _, h123, h1234⟩ := ExtractString_scalar_rules
  refine ⟨?_, ?_, ?_, ?_, ?_, ?_⟩
  · exact (hb stringRecord ("bool") true rfl).1
  · have h := (hn stringRecord ("int") 123 rfl).1
    rw [h, h123]
  · have h := (hn stringRecord ("float") (mkRat 1234 10) rfl).1
    rw [h, h1234]
  · exact (hs stringRecord ("keepUpper") ("Has Upper Case") rfl).1
  · have h := (hs stringRecord ("caseInsensitive") ("Has Upper Case") rfl).2
    rw [h]
    with_unfolding_all rfl
  · exact (hs stringRecord ("exponent") ("1e3") rfl).1

/-- Claim C8: for a non-empty collection, if Average is absent with no
error then StandardDeviation is also absent with no error; and the
zero-present-count case is guarded inside StandardDeviation itself,
independently of the average being present. -/
theorem StandardDeviation_absent_of_absent_average (records : List (Option Record))
    (path : String) (hne : records ≠ [])
    (havg : Average records path = Except.ok none) :
    StandardDeviation records path = Except.ok none ∧
    (∀ avg dss, Average records path = Except.ok avg →
      devLoop records path (Option.getD avg 0) 0 0 = Except.ok (dss, 0) →
      StandardDeviation records path = Except.ok none) := by
  have hlen0 : ¬(records.length = 0) := by simpa [List.length_eq_zero] using hne
  constructor
  · have hok : ∀ r ∈ records, numberOk r path = true :=
      Average_ok_all records path none havg
    have heval := Average_eval records path hok
    have hlen : (presentValues records path).length = 0 := by
      by_contra hc
      rw [heval, if_neg hc] at havg
      simp at havg
    have hnil : presentValues records path = [] := List.length_eq_zero.mp hlen
    have hdev := devLoop_eval path ((0 : ℚ)) records hok 0 0
    simp [StandardDeviation, hlen0, havg, hdev, hnil]
  · intro avg dss h1 h2
    simp [StandardDeviation, hlen0, h1, h2]

/-- Witness for claim C8: a non-empty collection with no present value at
the key. -/
theorem StandardDeviation_absent_of_absent_average_witness :
    StandardDeviation noneRecords ("v") = Except.ok none :=
  (StandardDeviation_absent_of_absent_average noneRecords ("v")
    (List.cons_ne_nil _ _) (by with_unfolding_all rfl)).1

/-- Claim C9: case-sensitive string coercion is idempotent: whenever
toString with caseSensitive true produces a present string s, applying it
to a record holding the string scalar s at its path returns s again. -/
theorem ExtractString_caseSensitive_fixed_point (r r' : Option Record)
    (p p' : String) (s : String)
    (h : ExtractString r p true = some s)
    (h' : Extract r' p' = some (Value.str s)) :
    ExtractString r' p' true = some s := by
  simp [ExtractString, h', normCase]

/-- Witness for claim C9: the serialization of the propA/propB mapping,
fed back as a fresh string scalar, is a fixed point. -/
theorem ExtractString_caseSensitive_fixed_point_witness :
    ExtractString (strRecord ("\x7b\"propA\":\"valA\",\"propB\":\"valB\"\x7d")) ("v") true =
      some ("\x7b\"propA\":\"valA\",\"propB\":\"valB\"\x7d") :=
  ExtractString_caseSensitive_fixed_point stringRecord
    (strRecord ("\x7b\"propA\":\"valA\",\"propB\":\"valB\"\x7d")) ("nested") ("v")
    ("\x7b\"propA\":\"valA\",\"propB\":\"valB\"\x7d")
    (by with_unfolding_all rfl) rfl

/-- Claim C10: if Average finished without an error and some record yields
a present numeric value, then the average is present, so the dereference
of the average inside the second pass of StandardDeviation never hits an
absent value. -/
theorem Average_present_of_present_value (records : List (Option Record))
    (path : String) (avg : Option ℚ)
    (havg : Average records path = Except.ok avg)
    (r : Option Record) (hr : r ∈ records) (x : ℚ)
    (hx : ExtractNumber r path = Except.ok (some x)) :
    ∃ q : ℚ, avg = some q ∧ Option.getD avg 0 = q := by
  have hok : ∀ r' ∈ records, numberOk r' path = true :=
    Average_ok_all records path avg havg
  have hne := presentValues_mem_ne_nil path records r x hr hx
  have hlen : ¬((presentValues records path).length = 0) := by
    simpa [List.length_eq_zero] using hne
  have heval := Average_eval records path hok
  rw [heval, if_neg hlen] at havg
  have havg' : avg = some (meanOf records path) := by
    simp only [Except.ok.injEq] at havg
    exact havg.symm
  exact ⟨meanOf records path, havg', by simp [havg']⟩

/-- Witness for claim C10: in the collection with the single present value
10 the average is present and its dereference yields 10. -/
theorem Average_present_of_present_value_witness :
    ∃ q : ℚ, (some (10 : ℚ)) = some q ∧ Option.getD (some (10 : ℚ)) 0 = q :=
  Average_present_of_present_value avgRecords ("v") (some 10)
    (by with_unfolding_all rfl) (numRecord 10) (List.mem_cons_self _ _) 10 rfl
